import Mathlib

/-!
Verification development for the pixelmap terrain-routing core
(`src/top_image.py`, class `TopImage`).

The Python code is shallowly embedded:
* pixel coordinates and colors are integer tuples;
* Python `int` is `ℤ`, Python `float` arithmetic is modelled exactly with `ℚ`;
* Python `range` is `pyRange` (both step signs, as CPython computes it);
* `int(x)` truncation toward zero is `pyInt`;
* fallible operations return `Except ErrorKind _`, with Python exceptions
  mapped to the spec's error kinds: `ValueError` from `range` with zero step
  ↦ `InvalidParameter`, `KeyError`/`TypeError` inside graph construction
  ↦ `GraphNotInitialized`, `networkx.NodeNotFound` ↦ `NodeNotFound`,
  `networkx.NetworkXNoPath` ↦ `NoPathFound`.
-/

namespace Pixelmap

/-- A pixel coordinate `(x, y)` (Python integer 2-tuple). -/
abbrev Coord := ℤ × ℤ

/-- An RGBA color tuple as returned by `QColor.toTuple()`. -/
abbrev Color := ℤ × ℤ × ℤ × ℤ

/-- A terrain-table entry `(label, cost)` — value type of `density_dict`. -/
abbrev Density := String × ℤ

/-- The spec's error kinds; Python exceptions are mapped onto them
(see the module comment). -/
inductive ErrorKind where
  | InvalidParameter
  | GraphNotInitialized
  | NodeNotFound
  | NoPathFound
deriving DecidableEq, Repr

instance {ε α : Type} [DecidableEq ε] [DecidableEq α] : DecidableEq (Except ε α) := fun a b =>
  match a, b with
  | .ok x, .ok y =>
    if h : x = y then .isTrue (by rw [h]) else .isFalse (by intro hc; cases hc; exact h rfl)
  | .error x, .error y =>
    if h : x = y then .isTrue (by rw [h]) else .isFalse (by intro hc; cases hc; exact h rfl)
  | .ok _, .error _ => .isFalse (by intro hc; cases hc)
  | .error _, .ok _ => .isFalse (by intro hc; cases hc)

/-- The raster image: dimensions plus a pixel accessor
(`QImage.width/height/pixelColor`). -/
structure Image where
  width : ℤ
  height : ℤ
  pixel : ℤ → ℤ → Color

/-- A graph edge as stored by `read_edges`: endpoints plus the
`factor`/`terrain`/`weight` attribute dictionary. -/
structure Edge where
  source : Coord
  target : Coord
  factor : ℚ
  terrain : String
  weight : ℤ
deriving DecidableEq, Repr

/-- The state of a `TopImage` object: the image, `_density_dict` (as an
insertion-ordered association list), the graph's nodes (coordinate with the
sampled `color` attribute) and edges, and `_step_size`
(`none` models Python `None`). -/
structure TopImage where
  image : Image
  density : List (Color × Density)
  nodes : List (Coord × Color)
  edges : List Edge
  step_size : Option ℤ

/-- `TopImage.__init__`: empty density dict, empty graph, no step size. -/
def mkTopImage (img : Image) : TopImage :=
  { image := img, density := [], nodes := [], edges := [], step_size := none }

/-- Floor division, as Python's `//`. -/
def pyFloorDiv (a b : ℤ) : ℤ := Int.fdiv a b

/-- Ceiling division `⌈a / b⌉` for `b ≠ 0`, via `⌈x⌉ = -⌊-x⌋`. -/
def ceilDiv (a b : ℤ) : ℤ := -(Int.fdiv (-a) b)

/-- Python `range(start, stop, step)` for `step ≠ 0`: the `k`-th element is
`start + step * k`, and the length is `max 0 ⌈(stop - start) / step⌉`
(CPython's element count, valid for both step signs). -/
def pyRange (start stop step : ℤ) : List ℤ :=
  (List.range (max 0 (ceilDiv (stop - start) step)).toNat).map
    fun k => start + step * k

/-- Python `int(q)` on a rational: truncation toward zero. -/
def pyInt (q : ℚ) : ℤ := Int.tdiv q.num q.den

/-- Association-list lookup in the density dict (`density_dict[color]`). -/
def lookupTable (table : List (Color × Density)) (c : Color) : Option Density :=
  (table.find? fun p => p.1 = c).map (·.2)

/-- The sampled color of a graph node (`self._graph.nodes[c]['color']`). -/
def nodeColor (nodes : List (Coord × Color)) (c : Coord) : Option Color :=
  (nodes.find? fun p => p.1 = c).map (·.2)

/-- `TopImage.read_nodes` (lines 49–57): clears the graph, records the step
size, samples the image on the grid
`range(0, width-1, step) × range(0, height-1, step)` (outer loop over `i`),
auto-registers unseen colors as `('', 0)` and creates one node per sample.
`range` with a zero step raises `ValueError` — the spec's
`InvalidParameter`. -/
def read_nodes (ti : TopImage) (step : ℤ) : Except ErrorKind TopImage :=
  if step = 0 then .error .InvalidParameter
  else
    let coords : List Coord :=
      (pyRange 0 (ti.image.width - 1) step).flatMap fun i =>
        (pyRange 0 (ti.image.height - 1) step).map fun j => (i, j)
    .ok { ti with
          step_size := some step
          nodes := coords.map fun c => (c, ti.image.pixel c.1 c.2)
          edges := []
          density := coords.foldl
            (fun d c =>
              if (lookupTable d (ti.image.pixel c.1 c.2)).isSome then d
              else d ++ [(ti.image.pixel c.1 c.2, ("", 0))])
            ti.density }

/-- `min(dS, dT, key=lambda d: d[1])`: Python `min` keeps the first argument
on ties, so the sweep-source endpoint wins when costs are equal.  This is
also the spec's "weakly-cheaper endpoint" rule. -/
def cheaper (dS dT : Density) : Density := if dS.2 ≤ dT.2 then dS else dT

/-- One edge of `get_star` (lines 31–39): resolve both endpoint colors in the
supplied table (`KeyError` if absent — `none` here), take the cheaper
density, and build the attribute dictionary with
`weight = int(cost * factor)`. -/
def mkEdge (table : List (Color × Density)) (nodes : List (Coord × Color))
    (s t : Coord) (factor : ℚ) : Option Edge := do
  let cs ← nodeColor nodes s
  let ct ← nodeColor nodes t
  let dS ← lookupTable table cs
  let dT ← lookupTable table ct
  let d := cheaper dS dT
  pure { source := s, target := t, factor := factor,
         terrain := d.1, weight := pyInt ((d.2 : ℚ) * factor) }

/-- The four forward-star targets of `get_star` with their factors:
right, down, down-right, down-left. -/
def starTargets (step : ℤ) (s : Coord) : List (Coord × ℚ) :=
  [((s.1 + step, s.2), 1),
   ((s.1, s.2 + step), 1),
   ((s.1 + step, s.2 + step), 3/2),
   ((s.1 + step, s.2 - step), 3/2)]

/-- Traverse a list with a fallible function, collecting all results or
failing on the first `none` (Python's iteration order: a raised `KeyError`
aborts the whole construction). -/
def optionMapList (f : α → Option β) : List α → Option (List β)
  | [] => some []
  | a :: l =>
    match f a with
    | none => none
    | some b => (optionMapList f l).map (b :: ·)

/-- All four edges of one star, or `none` if any color lookup fails. -/
def getStar (table : List (Color × Density)) (nodes : List (Coord × Color))
    (step : ℤ) (s : Coord) : Option (List Edge) :=
  optionMapList (fun tf => mkEdge table nodes s tf.1 tf.2) (starTargets step s)

/-- The inset sweep of `read_edges` (lines 42–46):
`range(step, width-step-1, step) × range(step, height-step-1, step)`,
outer loop over `i`. -/
def sweepCoords (w h step : ℤ) : List Coord :=
  (pyRange step (w - step - 1) step).flatMap fun i =>
    (pyRange step (h - step - 1) step).map fun j => (i, j)

/-- `TopImage.read_edges` (lines 23–47): fails (`TypeError` on
`range(None, ...)` — mapped to `GraphNotInitialized`) when `read_nodes` has
not run; otherwise clears the edges, replaces `_density_dict` by a copy of
the argument, and adds the star of every sweep coordinate.  A `KeyError`
from a color missing from the supplied table is also `GraphNotInitialized`.
All sweep sources and their forward targets were created by a matching
`read_nodes`, so the node set is unchanged. -/
def read_edges (ti : TopImage) (table : List (Color × Density)) :
    Except ErrorKind TopImage :=
  match ti.step_size with
  | none => .error .GraphNotInitialized
  | some step =>
    match optionMapList (getStar table ti.nodes step)
        (sweepCoords ti.image.width ti.image.height step) with
    | none => .error .GraphNotInitialized
    | some stars => .ok { ti with edges := stars.flatten, density := table }

/-- Undirected neighbor list of `v`: every node joined to `v` by some stored
edge (networkx graphs are undirected — an edge registered `A→B` is usable
`B→A`). -/
def nbrs (edges : List Edge) (v : Coord) : List Coord :=
  edges.filterMap fun e =>
    if e.source = v then some e.target
    else if e.target = v then some e.source else none

/-- Graph reachability: the reflexive-transitive closure of the undirected
adjacency relation.  This is the mathematical "a connecting path exists". -/
def Reachable (edges : List Edge) (s t : Coord) : Prop :=
  Relation.ReflTransGen (fun u v => v ∈ nbrs edges u) s t

/-- One expansion round of the reachable-set computation: keep the set and
add every neighbor of a member. -/
def expand (edges : List Edge) (S : Finset Coord) : Finset Coord :=
  S ∪ S.biUnion fun v => (nbrs edges v).toFinset

/-- All endpoints mentioned by the edge list. -/
def endpointsFinset (edges : List Edge) : Finset Coord :=
  (edges.flatMap fun e => [e.source, e.target]).toFinset

/-- Iteration budget: the size of `{s}` together with all edge endpoints —
enough rounds for `expand` to reach its fixpoint. -/
def fuelOf (edges : List Edge) (s : Coord) : ℕ :=
  (insert s (endpointsFinset edges)).card

/-- The set of nodes the search reaches from `s` (the key set of networkx
Dijkstra's `dist`/`paths` maps). -/
def reach (edges : List Edge) (s : Coord) : Finset Coord :=
  (expand edges)^[fuelOf edges s] {s}

/-- Distance/path map for the search payload: node ↦ (distance, path). -/
abbrev DistMap := List (Coord × (ℤ × List Coord))

/-- Lookup in a `DistMap`. -/
def lookupDP (dp : DistMap) (v : Coord) : Option (ℤ × List Coord) :=
  (dp.find? fun e => e.1 = v).map (·.2)

/-- Insert-or-replace in a `DistMap`. -/
def setDP (dp : DistMap) (v : Coord) (d : ℤ × List Coord) : DistMap :=
  if (dp.find? fun e => e.1 = v).isSome then
    dp.map fun e => if e.1 = v then (v, d) else e
  else dp ++ [(v, d)]

/-- Relax one directed use `u → v` of an edge with weight `w`. -/
def relaxEdge (dp : DistMap) (u v : Coord) (w : ℤ) : DistMap :=
  match lookupDP dp u with
  | none => dp
  | some (du, pu) =>
    match lookupDP dp v with
    | none => setDP dp v (du + w, pu ++ [v])
    | some (dv, _) =>
      if du + w < dv then setDP dp v (du + w, pu ++ [v]) else dp

/-- Relax every stored edge in both directions. -/
def relaxRound (edges : List Edge) (dp : DistMap) : DistMap :=
  edges.foldl
    (fun dp e => relaxEdge (relaxEdge dp e.source e.target e.weight)
                   e.target e.source e.weight)
    dp

/-- Iterated relaxation from `s`: with `fuelOf` rounds this computes the
min-weight distance and one min-weight path to every reachable node
(Bellman–Ford, a "standard non-negative-weight shortest-path algorithm"). -/
def bellman (edges : List Edge) (s : Coord) : DistMap :=
  (relaxRound edges)^[fuelOf edges s] [(s, (0, [s]))]

/-- The node set of the built graph (coordinates of the sampled nodes). -/
def nodeSet (ti : TopImage) : List Coord := ti.nodes.map Prod.fst

/-- `nx.single_source_dijkstra(self._graph, source, target)` (line 61),
modelled from the library's behavior: the *source* must be a graph node
(`nx.NodeNotFound` otherwise); then the search runs and a path is returned
exactly when the target was reached — any unreached target, including one
that is not a node at all, raises `nx.NetworkXNoPath`.  The returned path
is a min-weight path computed by `bellman`; only the reached/unreached
classification is relevant to the claims below. -/
def shortest_path (ti : TopImage) (s t : Coord) : Except ErrorKind (List Coord) :=
  if s ∈ nodeSet ti then
    if t ∈ reach ti.edges s then
      .ok (((lookupDP (bellman ti.edges s) t).map (·.2)).getD [s])
    else .error .NoPathFound
  else .error .NodeNotFound

/-- One itinerary entry `(node, distance, cost, terrain)` as appended to
`rests`/`stages`. -/
structure Entry where
  node : Coord
  distance : ℚ
  cost : ℚ
  terrain : String
deriving DecidableEq, Repr

/-- The mutable state of the `read_path` loop (lines 62–69): `last_node`,
the two result lists, the rest and stage sub-accumulators, and the current
stage terrain. -/
structure SegState where
  last_node : Coord
  rests : List Entry
  stages : List Entry
  rest_distance : ℚ
  rest_cost : ℚ
  stage_distance : ℚ
  stage_cost : ℚ
  stage_terrain : String
deriving DecidableEq, Repr

/-- One iteration of the `read_path` loop (lines 70–87) on edge `e` reaching
`node`: accumulate `distance`/`cost` into both accumulator pairs; if
`rest and rest_cost >= rest` (Python truthiness: `restB ≠ 0`) emit a rest
entry and zero both rest accumulators; if the edge's terrain differs from
the stage terrain or `node` is the path's last node, emit a stage entry,
update the stage terrain and zero the stage *distance* — the code does not
reset `stage_cost` (line 86 resets only `stage_distance`). -/
def segStep (pl step restB : ℚ) (final : Coord) (st : SegState)
    (node : Coord) (e : Edge) : SegState :=
  let distance := pl * e.factor * step
  let cost := distance * (e.weight : ℚ) / e.factor
  let rd := st.rest_distance + distance
  let rc := st.rest_cost + cost
  let sd := st.stage_distance + distance
  let sc := st.stage_cost + cost
  { last_node := node
    rests := if restB ≠ 0 ∧ restB ≤ rc then
        st.rests ++ [⟨node, rd, rc, e.terrain⟩]
      else st.rests
    rest_distance := if restB ≠ 0 ∧ restB ≤ rc then 0 else rd
    rest_cost := if restB ≠ 0 ∧ restB ≤ rc then 0 else rc
    stages := if e.terrain ≠ st.stage_terrain ∨ node = final then
        st.stages ++ [⟨st.last_node, sd, sc, st.stage_terrain⟩]
      else st.stages
    stage_distance := if e.terrain ≠ st.stage_terrain ∨ node = final then 0 else sd
    stage_cost := sc
    stage_terrain := if e.terrain ≠ st.stage_terrain ∨ node = final then e.terrain
      else st.stage_terrain }

/-- Edge lookup `self._graph.edges[(last_node, node)]` (line 71): the graph
is undirected, so either orientation matches; `none` models the `KeyError`
for a missing edge. -/
def edgeLookup (edges : List Edge) (u v : Coord) : Option Edge :=
  edges.find? fun e => (e.source = u ∧ e.target = v) ∨ (e.source = v ∧ e.target = u)

/-- The `for node in node_list[1:]` loop of `read_path`, walking the path's
consecutive pairs. -/
def segLoop (edges : List Edge) (pl step restB : ℚ) (final : Coord) :
    SegState → List Coord → Option SegState
  | st, [] => some st
  | st, node :: rest =>
    match edgeLookup edges st.last_node node with
    | none => none
    | some e => segLoop edges pl step restB final
        (segStep pl step restB final st node e) rest

/-- The result dictionary of `read_path`:
`{'rests': ..., 'stages': ..., 'nodes': ...}`. -/
structure PathData where
  rests : List Entry
  stages : List Entry
  nodes : List Coord
deriving DecidableEq, Repr

/-- The initial loop state (lines 62–69): `last_node = node_list[0]`, empty
result lists, all four sub-accumulators zero, and the stage terrain taken
from the source node's own terrain class. -/
def initState (src : Coord) (terr : String) : SegState :=
  ⟨src, [], [], 0, 0, 0, 0, terr⟩

/-- The segmentation part of `read_path` (lines 62–88), as a function of the
graph's edges, the step size, the node list, `pixel_length`, `rest`, and
the source node's terrain label.  `none` models the `KeyError` of a missing
edge (and the `IndexError` on an empty node list, which Dijkstra never
produces). -/
def segment (edges : List Edge) (step : ℚ) (node_list : List Coord)
    (pl restB : ℚ) (terr0 : String) : Option PathData :=
  match node_list with
  | [] => none
  | src :: rest =>
    (segLoop edges pl step restB ((src :: rest).getLast (by simp))
        (initState src terr0) rest).map
      fun st => ⟨st.rests, st.stages, src :: rest⟩

/-- `TopImage.read_path` (lines 59–88): find the node list with Dijkstra,
read the source node's terrain class from the current density dict, and run
the segmentation loop. -/
def read_path (ti : TopImage) (source target : Coord) (pl restB : ℚ) :
    Except ErrorKind PathData :=
  match shortest_path ti source target with
  | .error e => .error e
  | .ok node_list =>
    match ti.step_size with
    | none => .error .GraphNotInitialized
    | some step =>
      match node_list.head? >>= fun src =>
          nodeColor ti.nodes src >>= lookupTable ti.density with
      | none => .error .GraphNotInitialized
      | some d =>
        match segment ti.edges (step : ℚ) node_list pl restB d.1 with
        | none => .error .GraphNotInitialized
        | some pd => .ok pd

/-- The loop iteration as the SPEC describes it (§4.3 "reset the
sub-accumulator", read as resetting both stage accumulators): identical to
`segStep` except that emitting a stage entry also resets `stage_cost` to
zero.  This is the reference point for the refinement comparison of the
stage-cost claims; it is NOT the code's behavior. -/
def segStepR (pl step restB : ℚ) (final : Coord) (st : SegState)
    (node : Coord) (e : Edge) : SegState :=
  let distance := pl * e.factor * step
  let cost := distance * (e.weight : ℚ) / e.factor
  let rd := st.rest_distance + distance
  let rc := st.rest_cost + cost
  let sd := st.stage_distance + distance
  let sc := st.stage_cost + cost
  { last_node := node
    rests := if restB ≠ 0 ∧ restB ≤ rc then
        st.rests ++ [⟨node, rd, rc, e.terrain⟩]
      else st.rests
    rest_distance := if restB ≠ 0 ∧ restB ≤ rc then 0 else rd
    rest_cost := if restB ≠ 0 ∧ restB ≤ rc then 0 else rc
    stages := if e.terrain ≠ st.stage_terrain ∨ node = final then
        st.stages ++ [⟨st.last_node, sd, sc, st.stage_terrain⟩]
      else st.stages
    stage_distance := if e.terrain ≠ st.stage_terrain ∨ node = final then 0 else sd
    stage_cost := if e.terrain ≠ st.stage_terrain ∨ node = final then 0 else sc
    stage_terrain := if e.terrain ≠ st.stage_terrain ∨ node = final then e.terrain
      else st.stage_terrain }

/-- The spec-described segmentation loop (both stage accumulators reset). -/
def segLoopR (edges : List Edge) (pl step restB : ℚ) (final : Coord) :
    SegState → List Coord → Option SegState
  | st, [] => some st
  | st, node :: rest =>
    match edgeLookup edges st.last_node node with
    | none => none
    | some e => segLoopR edges pl step restB final
        (segStepR pl step restB final st node e) rest

/-- The spec-described segmentation (both stage accumulators reset). -/
def segmentR (edges : List Edge) (step : ℚ) (node_list : List Coord)
    (pl restB : ℚ) (terr0 : String) : Option PathData :=
  match node_list with
  | [] => none
  | src :: rest =>
    (segLoopR edges pl step restB ((src :: rest).getLast (by simp))
        (initState src terr0) rest).map
      fun st => ⟨st.rests, st.stages, src :: rest⟩

/-- Running totals (cumulative sums) of a list, starting from `acc`. -/
def runningTotals (acc : ℚ) : List ℚ → List ℚ
  | [] => []
  | a :: l => (acc + a) :: runningTotals (acc + a) l

/-- The per-edge `(distance, cost)` pairs of a walk starting at `u` through
the given further nodes, exactly as the loop computes them
(`distance = pixel_length * factor * step`,
`cost = distance * weight / factor`); `none` if some edge is missing. -/
def chainData (edges : List Edge) (pl step : ℚ) (u : Coord) :
    List Coord → Option (List (ℚ × ℚ))
  | [] => some []
  | v :: l =>
    match edgeLookup edges u v with
    | none => none
    | some e =>
      (chainData edges pl step v l).map
        ((pl * e.factor * step, pl * e.factor * step * (e.weight : ℚ) / e.factor) :: ·)

/-- Sum of the `distance` fields of a list of itinerary entries. -/
def sumDist (l : List Entry) : ℚ := (l.map (·.distance)).sum

/-- Sum of the `cost` fields of a list of itinerary entries. -/
def sumCost (l : List Entry) : ℚ := (l.map (·.cost)).sum

/-- A coordinate whose sampled color resolves in the supplied terrain
table: exactly the condition for the `density_dict[...]` lookups of
`read_edges` not to raise `KeyError`. -/
def Resolvable (table : List (Color × Density)) (nodes : List (Coord × Color))
    (c : Coord) : Prop :=
  ∃ col d, nodeColor nodes c = some col ∧ lookupTable table col = some d

instance (table : List (Color × Density)) (nodes : List (Coord × Color)) (c : Coord) :
    Decidable (Resolvable table nodes c) := by
  unfold Resolvable
  cases h : nodeColor nodes c with
  | none => exact .isFalse (by simp)
  | some col =>
    cases h2 : lookupTable table col with
    | none => exact .isFalse (by simp [h2])
    | some d => exact .isTrue ⟨col, d, rfl, h2⟩

end Pixelmap

namespace Pixelmap

/-- A 3×3 test image: columns 0–1 are "Plain"-colored, column 2 is
"Water"-colored (spec §8's concrete scenario). -/
def plainColor : Color := (129, 255, 0, 153)

/-- The water color of the 3×3 scenario. -/
def waterColor : Color := (22, 64, 223, 153)

/-- The 3×3 scenario image. -/
def img3 : Image :=
  { width := 3, height := 3, pixel := fun i _ => if i ≤ 1 then plainColor else waterColor }

/-- The 3×3 scenario terrain table. -/
def table3 : List (Color × Density) := [(plainColor, ("Plain", 1)), (waterColor, ("Water", 1000))]

/-- The 3×3 scenario `TopImage` after `read_nodes(step_size=1)`. -/
def ti3n : TopImage := (read_nodes (mkTopImage img3) 1).toOption.getD (mkTopImage img3)

/-- The 3×3 scenario `TopImage` after `read_edges(table3)`. -/
def ti3e : TopImage := (read_edges ti3n table3).toOption.getD ti3n


/-- A 2×2 single-node scenario built through the API: one node `(0,0)`,
no edges. -/
def img2 : Image := { width := 2, height := 2, pixel := fun _ _ => plainColor }

/-- 2×2 scenario after `read_nodes(1)`. -/
def ti2n : TopImage := (read_nodes (mkTopImage img2) 1).toOption.getD (mkTopImage img2)

/-- 2×2 scenario after `read_edges`. -/
def ti2e : TopImage := (read_edges ti2n table3).toOption.getD ti2n


/-- A 4×4 uniformly "Plain" image — small enough to evaluate, big enough for
a nonempty inset sweep at step 1. -/
def img4 : Image := { width := 4, height := 4, pixel := fun _ _ => plainColor }

/-- 4×4 scenario after `read_nodes(1)`. -/
def ti4n : TopImage := (read_nodes (mkTopImage img4) 1).toOption.getD (mkTopImage img4)

/-- 4×4 scenario after `read_edges` with the Plain/Water table. -/
def ti4e : TopImage := (read_edges ti4n table3).toOption.getD ti4n


/-- A unit edge `(0,0)–(1,0)`, terrain `"A"`, weight 1. -/
def edgeA1 : Edge := ⟨(0,0),(1,0),1,"A",1⟩

/-- A unit edge `(1,0)–(2,0)`, terrain `"A"`, weight 1. -/
def edgeA2 : Edge := ⟨(1,0),(2,0),1,"A",1⟩

/-- A unit edge `(1,0)–(2,0)`, terrain `"B"`, weight 1. -/
def edgeB2 : Edge := ⟨(1,0),(2,0),1,"B",1⟩

/-- A unit edge `(2,0)–(3,0)`, terrain `"B"`, weight 2. -/
def edgeB3 : Edge := ⟨(2,0),(3,0),1,"B",2⟩

/-- A 4-node straight path whose edge terrains are A, B, B. -/
def pathABB : List Coord := [(0,0),(1,0),(2,0),(3,0)]

/-- The edges of `pathABB`. -/
def edgesABB : List Edge := [edgeA1, edgeB2, edgeB3]

/-- A 3-node uniform-terrain path. -/
def pathAA : List Coord := [(0,0),(1,0),(2,0)]

/-- The edges of `pathAA` (all terrain `"A"`). -/
def edgesAA : List Edge := [edgeA1, edgeA2]

/-- Simulation relation between a state of the code's loop (`segStep`,
left) and a state of the spec-described loop (`segStepR`, right): all
components agree except that the code's `stage_cost` runs ahead by the sum
of the per-stage costs already emitted, and the code's emitted stage costs
are the running totals of the spec's per-stage costs. -/
def StageRel (c s : SegState) : Prop :=
  c.last_node = s.last_node ∧
  c.rests = s.rests ∧
  c.rest_distance = s.rest_distance ∧
  c.rest_cost = s.rest_cost ∧
  c.stage_distance = s.stage_distance ∧
  c.stage_terrain = s.stage_terrain ∧
  c.stages.map Entry.node = s.stages.map Entry.node ∧
  c.stages.map Entry.distance = s.stages.map Entry.distance ∧
  c.stages.map Entry.terrain = s.stages.map Entry.terrain ∧
  c.stages.map Entry.cost = runningTotals 0 (s.stages.map Entry.cost) ∧
  c.stage_cost = s.stage_cost + (s.stages.map Entry.cost).sum

end Pixelmap

namespace Pixelmap

lemma segStep_rests_zero (pl step : ℚ) (final : Coord) (st : SegState)
    (node : Coord) (e : Edge) :
    (segStep pl step 0 final st node e).rests = st.rests := by
  simp [segStep]

lemma segLoop_rests_zero (edges : List Edge) (pl step : ℚ) (final : Coord) :
    ∀ (l : List Coord) (st st' : SegState),
      segLoop edges pl step 0 final st l = some st' → st'.rests = st.rests := by
  intro l
  induction l with
  | nil =>
    intro st st' h
    simp only [segLoop] at h
    cases h
    rfl
  | cons node rest ih =>
    intro st st' h
    simp only [segLoop] at h
    cases hl : edgeLookup edges st.last_node node with
    | none => rw [hl] at h; cases h
    | some e =>
      rw [hl] at h
      rw [ih _ _ h, segStep_rests_zero]

lemma segStep_rest_cost_ge (pl step restB : ℚ) (final : Coord) (st : SegState)
    (node : Coord) (e : Edge)
    (hst : ∀ en ∈ st.rests, restB ≤ en.cost) :
    ∀ en ∈ (segStep pl step restB final st node e).rests, restB ≤ en.cost := by
  by_cases hr : restB ≠ 0 ∧
      restB ≤ st.rest_cost + pl * e.factor * step * (e.weight : ℚ) / e.factor
  · intro en hen
    simp only [segStep, if_pos hr, List.mem_append, List.mem_singleton] at hen
    rcases hen with hen | hen
    · exact hst en hen
    · subst hen; exact hr.2
  · intro en hen
    simp only [segStep, if_neg hr] at hen
    exact hst en hen

lemma segLoop_rest_cost_ge (edges : List Edge) (pl step restB : ℚ) (final : Coord) :
    ∀ (l : List Coord) (st st' : SegState),
      segLoop edges pl step restB final st l = some st' →
      (∀ en ∈ st.rests, restB ≤ en.cost) → ∀ en ∈ st'.rests, restB ≤ en.cost := by
  intro l
  induction l with
  | nil =>
    intro st st' h hst
    simp only [segLoop] at h
    cases h
    exact hst
  | cons node rest ih =>
    intro st st' h hst
    simp only [segLoop] at h
    cases hl : edgeLookup edges st.last_node node with
    | none => rw [hl] at h; cases h
    | some e =>
      rw [hl] at h
      exact ih _ _ h (segStep_rest_cost_ge pl step restB final st node e hst)

lemma sumDist_append (l : List Entry) (en : Entry) :
    sumDist (l ++ [en]) = sumDist l + en.distance := by
  simp [sumDist]

lemma sumCost_append (l : List Entry) (en : Entry) :
    sumCost (l ++ [en]) = sumCost l + en.cost := by
  simp [sumCost]

lemma segStep_stage_dist (pl step restB : ℚ) (final : Coord) (st : SegState)
    (node : Coord) (e : Edge) :
    sumDist (segStep pl step restB final st node e).stages
        + (segStep pl step restB final st node e).stage_distance
      = sumDist st.stages + st.stage_distance + pl * e.factor * step := by
  by_cases hs : e.terrain ≠ st.stage_terrain ∨ node = final
  · simp only [segStep, if_pos hs, sumDist_append]
    ring
  · simp only [segStep, if_neg hs]
    ring

lemma segStep_rest_dist (pl step restB : ℚ) (final : Coord) (st : SegState)
    (node : Coord) (e : Edge) :
    sumDist (segStep pl step restB final st node e).rests
        + (segStep pl step restB final st node e).rest_distance
      = sumDist st.rests + st.rest_distance + pl * e.factor * step := by
  by_cases hr : restB ≠ 0 ∧
      restB ≤ st.rest_cost + pl * e.factor * step * (e.weight : ℚ) / e.factor
  · simp only [segStep, if_pos hr, sumDist_append]
    ring
  · simp only [segStep, if_neg hr]
    ring

lemma segStep_last_node (pl step restB : ℚ) (final : Coord) (st : SegState)
    (node : Coord) (e : Edge) :
    (segStep pl step restB final st node e).last_node = node := rfl

lemma segLoop_sums (edges : List Edge) (pl step restB : ℚ) (final : Coord) :
    ∀ (l : List Coord) (st st' : SegState),
      segLoop edges pl step restB final st l = some st' →
      ∃ pairs, chainData edges pl step st.last_node l = some pairs ∧
        sumDist st'.stages + st'.stage_distance
          = sumDist st.stages + st.stage_distance + (pairs.map Prod.fst).sum ∧
        sumDist st'.rests + st'.rest_distance
          = sumDist st.rests + st.rest_distance + (pairs.map Prod.fst).sum := by
  intro l
  induction l with
  | nil =>
    intro st st' h
    simp only [segLoop] at h
    cases h
    exact ⟨[], rfl, by simp, by simp⟩
  | cons node rest ih =>
    intro st st' h
    simp only [segLoop] at h
    cases hl : edgeLookup edges st.last_node node with
    | none => rw [hl] at h; cases h
    | some e =>
      rw [hl] at h
      obtain ⟨pairs, hc, h1, h2⟩ := ih _ _ h
      rw [segStep_last_node] at hc
      refine ⟨(pl * e.factor * step,
               pl * e.factor * step * (e.weight : ℚ) / e.factor) :: pairs, ?_, ?_, ?_⟩
      · simp only [chainData]
        rw [hl, hc]
        rfl
      · rw [h1, segStep_stage_dist]
        simp only [List.map_cons, List.sum_cons]
        ring
      · rw [h2, segStep_rest_dist]
        simp only [List.map_cons, List.sum_cons]
        ring

lemma segLoop_final_flush (edges : List Edge) (pl step restB : ℚ) (final : Coord) :
    ∀ (l : List Coord) (st st' : SegState),
      segLoop edges pl step restB final st l = some st' →
      l.getLast? = some final → st'.stage_distance = 0 := by
  intro l
  induction l with
  | nil =>
    intro st st' h hlast
    simp at hlast
  | cons node rest ih =>
    intro st st' h hlast
    simp only [segLoop] at h
    cases hl : edgeLookup edges st.last_node node with
    | none => rw [hl] at h; cases h
    | some e =>
      rw [hl] at h
      cases rest with
      | nil =>
        simp only [List.getLast?_singleton, Option.some_inj] at hlast
        subst hlast
        simp only [segLoop] at h
        cases h
        simp [segStep]
      | cons b l2 =>
        exact ih _ _ h (by simpa using hlast)

lemma runningTotals_append (acc : ℚ) (l : List ℚ) (x : ℚ) :
    runningTotals acc (l ++ [x]) = runningTotals acc l ++ [acc + l.sum + x] := by
  induction l generalizing acc with
  | nil => simp [runningTotals]
  | cons a t ih =>
    simp only [runningTotals, List.cons_append, List.append_eq, List.sum_cons]
    rw [ih]
    have hx : acc + a + t.sum + x = acc + (a + t.sum) + x := by ring
    rw [hx]

lemma segStepR_sim (pl step restB : ℚ) (final : Coord) (c s : SegState)
    (node : Coord) (e : Edge) (h : StageRel c s) :
    StageRel (segStep pl step restB final c node e)
      (segStepR pl step restB final s node e) := by
  obtain ⟨h1, h2, h3, h4, h5, h6, h7, h8, h9, h10, h11⟩ := h
  cases c with
  | mk cln crests cstages crd crc csd csc cterr =>
  cases s with
  | mk sln srests sstages srd src2 ssd ssc sterr =>
  dsimp at h1 h2 h3 h4 h5 h6 h7 h8 h9 h10 h11
  subst h1 h2 h3 h4 h5 h6 h11
  unfold StageRel segStep segStepR
  refine ⟨rfl, rfl, rfl, rfl, rfl, rfl, ?_, ?_, ?_, ?_, ?_⟩ <;>
    by_cases hs : e.terrain ≠ cterr ∨ node = final
  · simp only [if_pos hs, List.map_append, List.map_cons, List.map_nil]
    rw [h7]
  · simp only [if_neg hs]
    exact h7
  · simp only [if_pos hs, List.map_append, List.map_cons, List.map_nil]
    rw [h8]
  · simp only [if_neg hs]
    exact h8
  · simp only [if_pos hs, List.map_append, List.map_cons, List.map_nil]
    rw [h9]
  · simp only [if_neg hs]
    exact h9
  · simp only [if_pos hs, List.map_append, List.map_cons, List.map_nil]
    rw [h10, runningTotals_append]
    congr 2
    ring
  · simp only [if_neg hs]
    exact h10
  · simp only [if_pos hs, List.map_append, List.map_cons, List.map_nil,
      List.sum_append, List.sum_cons, List.sum_nil]
    ring
  · simp only [if_neg hs]
    ring

lemma segLoopR_sim (edges : List Edge) (pl step restB : ℚ) (final : Coord) :
    ∀ (l : List Coord) (c s c' : SegState), StageRel c s →
      segLoop edges pl step restB final c l = some c' →
      ∃ s', segLoopR edges pl step restB final s l = some s' ∧ StageRel c' s' := by
  intro l
  induction l with
  | nil =>
    intro c s c' hrel h
    simp only [segLoop] at h
    cases h
    exact ⟨s, rfl, hrel⟩
  | cons node rest ih =>
    intro c s c' hrel h
    simp only [segLoop] at h
    cases hl : edgeLookup edges c.last_node node with
    | none => rw [hl] at h; cases h
    | some e =>
      rw [hl] at h
      obtain ⟨s', hs', hrel'⟩ :=
        ih _ _ _ (segStepR_sim pl step restB final c s node e hrel) h
      refine ⟨s', ?_, hrel'⟩
      simp only [segLoopR]
      rw [← hrel.1, hl]
      exact hs'

lemma getLastD_cons (a : Coord) (z : Coord) (Y : List Coord) :
    ((a :: Y).getLast?).getD z = Y.getLast?.getD a := by
  cases Y with
  | nil => rfl
  | cons b t =>
    rw [List.getLast?_cons_cons, List.getLast?_eq_getLast (b :: t) (List.cons_ne_nil b t)]
    rfl

lemma edgeLookup_mem (edges : List Edge) (u v : Coord) (e : Edge)
    (h : edgeLookup edges u v = some e) : e ∈ edges :=
  List.mem_of_find?_eq_some h

lemma segLoop_uniform_anchor (edges : List Edge) (pl step restB : ℚ) (final : Coord)
    (terr0 : String) (hterr : ∀ e ∈ edges, e.terrain = terr0) :
    ∀ (l : List Coord) (st st' : SegState),
      st.stage_terrain = terr0 →
      l.getLast? = some final →
      (∀ n ∈ l.dropLast, n ≠ final) →
      segLoop edges pl step restB final st l = some st' →
      st'.stages.map Entry.node
        = st.stages.map Entry.node ++ [l.dropLast.getLast?.getD st.last_node] := by
  intro l
  induction l with
  | nil =>
    intro st st' hterr0 hlast hmid h
    simp at hlast
  | cons node rest ih =>
    intro st st' hterr0 hlast hmid h
    simp only [segLoop] at h
    cases hl : edgeLookup edges st.last_node node with
    | none => rw [hl] at h; cases h
    | some e =>
      rw [hl] at h
      have he : e.terrain = terr0 := hterr e (edgeLookup_mem edges _ _ e hl)
      cases rest with
      | nil =>
        have hnode : node = final := by simpa using hlast
        subst hnode
        simp only [segLoop] at h
        cases h
        simp [segStep]
      | cons b t =>
        have hnode : node ≠ final := hmid node (by simp)
        have hcond : ¬(e.terrain ≠ st.stage_terrain ∨ node = final) := by
          rw [he, hterr0]
          simp [hnode]
        have hterr' : (segStep pl step restB final st node e).stage_terrain = terr0 := by
          simp only [segStep, if_neg hcond]
          exact hterr0
        have hstages : (segStep pl step restB final st node e).stages = st.stages := by
          simp only [segStep, if_neg hcond]
        have hlast' : (b :: t).getLast? = some final := by
          rw [← hlast]
          exact List.getLast?_cons_cons.symm
        have hmid' : ∀ n ∈ (b :: t).dropLast, n ≠ final := by
          intro n hn
          exact hmid n (by simp [hn])
        have := ih _ _ hterr' hlast' hmid' h
        rw [this, hstages, segStep_last_node]
        have hdrop : (node :: b :: t).dropLast = node :: (b :: t).dropLast := rfl
        rw [hdrop, getLastD_cons]

lemma segment_eq_some (edges : List Edge) (step : ℚ) (src : Coord) (rest : List Coord)
    (pl restB : ℚ) (terr0 : String) (pd : PathData)
    (h : segment edges step (src :: rest) pl restB terr0 = some pd) :
    ∃ st', segLoop edges pl step restB ((src :: rest).getLast (by simp))
        (initState src terr0) rest = some st' ∧
      pd = ⟨st'.rests, st'.stages, src :: rest⟩ := by
  simp only [segment] at h
  rcases Option.map_eq_some'.mp h with ⟨st', hst', hpd⟩
  exact ⟨st', hst', hpd.symm⟩

lemma segLoop_rest_distance_nonneg (edges : List Edge) (pl step restB : ℚ)
    (final : Coord) (hpl : 0 ≤ pl) (hstep : 0 ≤ step)
    (hfac : ∀ e ∈ edges, 0 ≤ e.factor) :
    ∀ (l : List Coord) (st st' : SegState),
      segLoop edges pl step restB final st l = some st' →
      0 ≤ st.rest_distance → 0 ≤ st'.rest_distance := by
  intro l
  induction l with
  | nil =>
    intro st st' h h0
    simp only [segLoop] at h
    cases h
    exact h0
  | cons node rest ih =>
    intro st st' h h0
    simp only [segLoop] at h
    cases hl : edgeLookup edges st.last_node node with
    | none => rw [hl] at h; cases h
    | some e =>
      rw [hl] at h
      refine ih _ _ h ?_
      have hd : 0 ≤ pl * e.factor * step :=
        mul_nonneg (mul_nonneg hpl (hfac e (edgeLookup_mem edges _ _ e hl))) hstep
      by_cases hr : restB ≠ 0 ∧
          restB ≤ st.rest_cost + pl * e.factor * step * (e.weight : ℚ) / e.factor
      · simp only [segStep, if_pos hr]
        exact le_refl 0
      · simp only [segStep, if_neg hr]
        exact add_nonneg h0 hd

/-- C2 (amended): a rest budget of exactly `0` disables rest emission — for
every graph, path, pixel length and initial terrain, a successful
segmentation with `rest = 0` has an empty rests list.  (The original
claim's "0 or less" fails: a strictly negative budget is truthy in Python
and `rest_cost >= rest` then holds at every edge — see the
counterexample.) -/
theorem C2_zero_budget_empty_rests (edges : List Edge) (step : ℚ)
    (node_list : List Coord) (pl : ℚ) (terr0 : String) (pd : PathData)
    (h : segment edges step node_list pl 0 terr0 = some pd) :
    pd.rests = [] := by
  cases node_list with
  | nil => simp [segment] at h
  | cons src rest =>
    obtain ⟨st', hst', hpd⟩ := segment_eq_some edges step src rest pl 0 terr0 pd h
    rw [hpd]
    exact segLoop_rests_zero edges pl step _ rest _ st' hst'

/-- C2 witness: a concrete two-edge path segmented with `rest = 0` has no
rests. -/
theorem C2_zero_budget_empty_rests_witness :
    segment edgesAA 1 pathAA 1 0 "A" = some ⟨[], [⟨(1,0),2,2,"A"⟩], pathAA⟩ ∧
    (⟨[], [⟨(1,0),2,2,"A"⟩], pathAA⟩ : PathData).rests = [] :=
  have h : segment edgesAA 1 pathAA 1 0 "A" = some ⟨[], [⟨(1,0),2,2,"A"⟩], pathAA⟩ := by
    norm_num +decide [segment, segLoop, segStep, edgeLookup, initState, edgesAA, pathAA,
      edgeA1, edgeA2]
  ⟨h, C2_zero_budget_empty_rests edgesAA 1 pathAA 1 "A" _ h⟩

/-- C2 counterexample: with the strictly negative budget `rest = -1`
(which is `≤ 0`, so the claim demands an empty rests list), a one-edge path
of cost 1 emits a rest entry at its only edge. -/
theorem C2_counterexample :
    ((-1 : ℚ) ≤ 0) ∧
    segment [edgeA1] 1 [(0,0),(1,0)] 1 (-1) "A"
      = some ⟨[⟨(1,0),1,1,"A"⟩], [⟨(0,0),1,1,"A"⟩], [(0,0),(1,0)]⟩ ∧
    ([(⟨(1,0),1,1,"A"⟩ : Entry)] : List Entry) ≠ [] := by
  refine ⟨by norm_num, ?_, by simp⟩
  norm_num +decide [segment, segLoop, segStep, edgeLookup, initState, edgeA1]

/-- C10: whenever the rest budget is strictly positive, every emitted rest
entry's accumulated cost is at least the budget — the `rest_cost >= rest`
guard (line 79) is checked before any rest is appended. -/
theorem C10_rest_cost_at_least_budget (edges : List Edge) (step : ℚ)
    (node_list : List Coord) (pl restB : ℚ) (terr0 : String) (pd : PathData)
    (hpos : 0 < restB)
    (h : segment edges step node_list pl restB terr0 = some pd) :
    ∀ en ∈ pd.rests, restB ≤ en.cost := by
  cases node_list with
  | nil => simp [segment] at h
  | cons src rest =>
    obtain ⟨st', hst', hpd⟩ := segment_eq_some edges step src rest pl restB terr0 pd h
    rw [hpd]
    exact segLoop_rest_cost_ge edges pl step restB _ rest _ st' hst' (by simp [initState])

/-- C10 witness: budget 1, a one-edge path of cost 1 — the emitted rest has
cost `1 ≥ 1`. -/
theorem C10_rest_cost_at_least_budget_witness :
    (0 : ℚ) < 1 ∧
    segment [edgeA1] 1 [(0,0),(1,0)] 1 1 "A"
      = some ⟨[⟨(1,0),1,1,"A"⟩], [⟨(0,0),1,1,"A"⟩], [(0,0),(1,0)]⟩ ∧
    (1 : ℚ) ≤ (⟨(1,0),1,1,"A"⟩ : Entry).cost :=
  have h : segment [edgeA1] 1 [(0,0),(1,0)] 1 1 "A"
      = some ⟨[⟨(1,0),1,1,"A"⟩], [⟨(0,0),1,1,"A"⟩], [(0,0),(1,0)]⟩ := by
    norm_num +decide [segment, segLoop, segStep, edgeLookup, initState, edgeA1]
  ⟨by norm_num, h,
    C10_rest_cost_at_least_budget [edgeA1] 1 [(0,0),(1,0)] 1 1 "A" _ (by norm_num) h
      ⟨(1,0),1,1,"A"⟩ (by simp)⟩

/-- C4 (amended): for every path of at least two nodes, the sum of the
stage distances always equals the plain per-edge distance total of the
whole path; the sum of the rest distances equals that total only up to a
leftover — the distance accumulated after the last emitted rest — which is
nonnegative whenever `pixel_length`, the step and all edge factors are.
(The original claim's equality of the two sums fails whenever the trailing
accumulation never reaches the budget — see the counterexample.) -/
theorem C4_distance_conservation (edges : List Edge) (step : ℚ)
    (src : Coord) (rest : List Coord) (pl restB : ℚ) (terr0 : String) (pd : PathData)
    (hne : rest ≠ [])
    (h : segment edges step (src :: rest) pl restB terr0 = some pd) :
    ∃ pairs leftover,
      chainData edges pl step src rest = some pairs ∧
      sumDist pd.stages = (pairs.map Prod.fst).sum ∧
      sumDist pd.rests + leftover = (pairs.map Prod.fst).sum ∧
      (0 ≤ pl → 0 ≤ step → (∀ e ∈ edges, 0 ≤ e.factor) → 0 ≤ leftover) := by
  obtain ⟨st', hst', hpd⟩ := segment_eq_some edges step src rest pl restB terr0 pd h
  obtain ⟨pairs, hc, h1, h2⟩ := segLoop_sums edges pl step restB _ rest _ st' hst'
  have hflush : st'.stage_distance = 0 := by
    refine segLoop_final_flush edges pl step restB _ rest _ st' hst' ?_
    rw [List.getLast?_eq_getLast rest hne]
    rw [List.getLast_cons hne]
  refine ⟨pairs, st'.rest_distance, hc, ?_, ?_, ?_⟩
  · rw [hpd]
    dsimp only
    have := h1
    rw [hflush] at this
    simpa [initState, sumDist] using this
  · rw [hpd]
    dsimp only
    simpa [initState, sumDist] using h2
  · intro hpl hstep hfac
    exact segLoop_rest_distance_nonneg edges pl step restB _ hpl hstep hfac rest _ st'
      hst' (by simp [initState])

/-- C4 witness: the two-edge uniform path with budget 2 — the final edge
triggers a rest, the leftover is 0, and both sums equal the total
distance 2. -/
theorem C4_distance_conservation_witness :
    segment edgesAA 1 pathAA 1 2 "A"
      = some ⟨[⟨(2,0),2,2,"A"⟩], [⟨(1,0),2,2,"A"⟩], pathAA⟩ ∧
    (∃ pairs leftover,
      chainData edgesAA 1 1 (0,0) [(1,0),(2,0)] = some pairs ∧
      sumDist [(⟨(1,0),2,2,"A"⟩ : Entry)] = (pairs.map Prod.fst).sum ∧
      sumDist [(⟨(2,0),2,2,"A"⟩ : Entry)] + leftover = (pairs.map Prod.fst).sum ∧
      (0 ≤ (1:ℚ) → 0 ≤ (1:ℚ) → (∀ e ∈ edgesAA, 0 ≤ e.factor) → 0 ≤ leftover)) :=
  have h : segment edgesAA 1 pathAA 1 2 "A"
      = some ⟨[⟨(2,0),2,2,"A"⟩], [⟨(1,0),2,2,"A"⟩], pathAA⟩ := by
    norm_num +decide [segment, segLoop, segStep, edgeLookup, initState, edgesAA,
      pathAA, edgeA1, edgeA2]
  ⟨h, C4_distance_conservation edgesAA 1 (0,0) [(1,0),(2,0)] 1 2 "A" _ (by simp) h⟩

/-- C4 counterexample: a one-edge path (two nodes) with rests enabled
(`rest = 100 > 0`) and edge cost 1: the stage distances sum to 1 but no
rest is ever emitted, so the rest distances sum to 0 — the two sums
differ, though the claim asserts they are equal. -/
theorem C4_counterexample :
    (0 : ℚ) < 100 ∧
    segment [edgeA1] 1 [(0,0),(1,0)] 1 100 "A"
      = some ⟨[], [⟨(0,0),1,1,"A"⟩], [(0,0),(1,0)]⟩ ∧
    sumDist [(⟨(0,0),1,1,"A"⟩ : Entry)] = 1 ∧
    sumDist ([] : List Entry) = 0 ∧
    (1 : ℚ) ≠ 0 := by
  refine ⟨by norm_num, ?_, by simp [sumDist], by simp [sumDist], by norm_num⟩
  norm_num +decide [segment, segLoop, segStep, edgeLookup, initState, edgeA1]

/-- C1 (amended): after a stage entry is emitted only the stage *distance*
accumulator is reset (line 86); `stage_cost` keeps running, so the code's
emitted stage costs are the running totals (cumulative sums) of the
per-stage costs that the spec-described both-reset loop (`segmentR`) would
emit; all other output components agree between the two loops. -/
theorem C1_stage_cost_running_total (edges : List Edge) (step : ℚ)
    (node_list : List Coord) (pl restB : ℚ) (terr0 : String) (pd : PathData)
    (h : segment edges step node_list pl restB terr0 = some pd) :
    ∃ pdR, segmentR edges step node_list pl restB terr0 = some pdR ∧
      pd.rests = pdR.rests ∧
      pd.stages.map Entry.node = pdR.stages.map Entry.node ∧
      pd.stages.map Entry.distance = pdR.stages.map Entry.distance ∧
      pd.stages.map Entry.terrain = pdR.stages.map Entry.terrain ∧
      pd.stages.map Entry.cost = runningTotals 0 (pdR.stages.map Entry.cost) := by
  cases node_list with
  | nil => simp [segment] at h
  | cons src rest =>
    obtain ⟨st', hst', hpd⟩ := segment_eq_some edges step src rest pl restB terr0 pd h
    have hrel0 : StageRel (initState src terr0) (initState src terr0) :=
      ⟨rfl, rfl, rfl, rfl, rfl, rfl, rfl, rfl, rfl, rfl, by simp [initState]⟩
    obtain ⟨s', hs', hrel⟩ := segLoopR_sim edges pl step restB _ rest _ _ st' hrel0 hst'
    obtain ⟨g1, g2, g3, g4, g5, g6, g7, g8, g9, g10, g11⟩ := hrel
    refine ⟨⟨s'.rests, s'.stages, src :: rest⟩, ?_, ?_, ?_, ?_, ?_, ?_⟩
    · simp only [segmentR]
      rw [hs']
      rfl
    · rw [hpd]; exact g2
    · rw [hpd]; exact g7
    · rw [hpd]; exact g8
    · rw [hpd]; exact g9
    · rw [hpd]; exact g10

/-- C1 witness: the A,B,B path — the code emits stage costs `[2, 4]`, the
running totals of the spec-loop's per-stage costs `[2, 2]`. -/
theorem C1_stage_cost_running_total_witness :
    segment edgesABB 1 pathABB 1 0 "A"
      = some ⟨[], [⟨(1,0),2,2,"A"⟩, ⟨(2,0),1,4,"B"⟩], pathABB⟩ ∧
    ∃ pdR, segmentR edgesABB 1 pathABB 1 0 "A" = some pdR ∧
      (⟨[], [⟨(1,0),2,2,"A"⟩, ⟨(2,0),1,4,"B"⟩], pathABB⟩ : PathData).rests = pdR.rests ∧
      (⟨[], [⟨(1,0),2,2,"A"⟩, ⟨(2,0),1,4,"B"⟩], pathABB⟩ : PathData).stages.map Entry.node
        = pdR.stages.map Entry.node ∧
      (⟨[], [⟨(1,0),2,2,"A"⟩, ⟨(2,0),1,4,"B"⟩], pathABB⟩ : PathData).stages.map Entry.distance
        = pdR.stages.map Entry.distance ∧
      (⟨[], [⟨(1,0),2,2,"A"⟩, ⟨(2,0),1,4,"B"⟩], pathABB⟩ : PathData).stages.map Entry.terrain
        = pdR.stages.map Entry.terrain ∧
      (⟨[], [⟨(1,0),2,2,"A"⟩, ⟨(2,0),1,4,"B"⟩], pathABB⟩ : PathData).stages.map Entry.cost
        = runningTotals 0 (pdR.stages.map Entry.cost) :=
  have h : segment edgesABB 1 pathABB 1 0 "A"
      = some ⟨[], [⟨(1,0),2,2,"A"⟩, ⟨(2,0),1,4,"B"⟩], pathABB⟩ := by
    norm_num +decide [segment, segLoop, segStep, edgeLookup, initState, edgesABB,
      pathABB, edgeA1, edgeB2, edgeB3]
  ⟨h, C1_stage_cost_running_total edgesABB 1 pathABB 1 0 "A" _ h⟩

/-- C1 counterexample: on the A,B,B path the second emitted stage entry has
cost 4, but the per-edge cost accumulated since the previous stage boundary
(the cost of the single B,weight-2 edge) is 2 — the claim's "cost equals
only the costs since the previous boundary" is false. -/
theorem C1_counterexample :
    segment edgesABB 1 pathABB 1 0 "A"
      = some ⟨[], [⟨(1,0),2,2,"A"⟩, ⟨(2,0),1,4,"B"⟩], pathABB⟩ ∧
    (1 : ℚ) * edgeB3.factor * 1 * (edgeB3.weight : ℚ) / edgeB3.factor = 2 ∧
    (⟨(2,0),1,4,"B"⟩ : Entry).cost ≠ 2 := by
  refine ⟨?_, by norm_num [edgeB3], by norm_num⟩
  norm_num +decide [segment, segLoop, segStep, edgeLookup, initState, edgesABB,
    pathABB, edgeA1, edgeB2, edgeB3]

/-- C3 (amended): a stage entry's anchor is the node reached just *before*
the edge that triggered the emission — for a uniform-terrain path (no
boundary until the final flush) the single emitted stage is anchored at the
second-to-last node of the path, not at the node where the stage started. -/
theorem C3_stage_anchor_is_pre_boundary_node (edges : List Edge) (step : ℚ)
    (src : Coord) (rest : List Coord) (pl restB : ℚ) (terr0 : String)
    (final : Coord) (pd : PathData)
    (hterr : ∀ e ∈ edges, e.terrain = terr0)
    (hlast : (src :: rest).getLast? = some final)
    (hmid : ∀ n ∈ rest.dropLast, n ≠ final)
    (hne : rest ≠ [])
    (h : segment edges step (src :: rest) pl restB terr0 = some pd) :
    pd.stages.map Entry.node = [rest.dropLast.getLast?.getD src] := by
  obtain ⟨st', hst', hpd⟩ := segment_eq_some edges step src rest pl restB terr0 pd h
  have hfin : (src :: rest).getLast (by simp) = final := by
    rw [List.getLast?_eq_getLast (src :: rest) (by simp)] at hlast
    exact Option.some_inj.mp hlast
  rw [hfin] at hst'
  have hrestlast : rest.getLast? = some final := by
    cases rest with
    | nil => exact absurd rfl hne
    | cons b t =>
      rw [← hlast]
      exact List.getLast?_cons_cons.symm
  have := segLoop_uniform_anchor edges pl step restB final terr0 hterr rest
    (initState src terr0) st' rfl hrestlast hmid hst'
  rw [hpd]
  dsimp only
  rw [this]
  simp [initState]

/-- C3 witness: on the uniform two-edge path `(0,0),(1,0),(2,0)` the single
stage is anchored at the penultimate node `(1,0)`. -/
theorem C3_stage_anchor_is_pre_boundary_node_witness :
    (∀ e ∈ edgesAA, e.terrain = "A") ∧
    segment edgesAA 1 pathAA 1 0 "A" = some ⟨[], [⟨(1,0),2,2,"A"⟩], pathAA⟩ ∧
    (⟨[], [⟨(1,0),2,2,"A"⟩], pathAA⟩ : PathData).stages.map Entry.node = [((1,0) : Coord)] :=
  have hterr : ∀ e ∈ edgesAA, e.terrain = "A" := by
    intro e he
    rcases List.mem_cons.mp he with rfl | he2
    · rfl
    · rcases List.mem_cons.mp he2 with rfl | he3
      · rfl
      · simp at he3
  have h : segment edgesAA 1 pathAA 1 0 "A" = some ⟨[], [⟨(1,0),2,2,"A"⟩], pathAA⟩ := by
    norm_num +decide [segment, segLoop, segStep, edgeLookup, initState, edgesAA,
      pathAA, edgeA1, edgeA2]
  ⟨hterr, h,
    C3_stage_anchor_is_pre_boundary_node edgesAA 1 (0,0) [(1,0),(2,0)] 1 0 "A" (2,0) _
      hterr (by decide) (by decide) (by decide) h⟩

/-- C3 counterexample: on the uniform path `(0,0),(1,0),(2,0)` the first
(and only) stage started at the source `(0,0)`, but the emitted entry's
anchor is `(1,0)`. -/
theorem C3_counterexample :
    segment edgesAA 1 pathAA 1 0 "A" = some ⟨[], [⟨(1,0),2,2,"A"⟩], pathAA⟩ ∧
    ((1,0) : Coord) ≠ ((0,0) : Coord) := by
  refine ⟨?_, by decide⟩
  norm_num +decide [segment, segLoop, segStep, edgeLookup, initState, edgesAA,
    pathAA, edgeA1, edgeA2]

lemma mem_nbrs_endpoints (edges : List Edge) (v x : Coord)
    (hx : x ∈ nbrs edges v) : x ∈ endpointsFinset edges := by
  simp only [nbrs, List.mem_filterMap] at hx
  obtain ⟨e, he, hcond⟩ := hx
  simp only [endpointsFinset, List.mem_toFinset, List.mem_flatMap]
  split_ifs at hcond with h1 h2
  · exact ⟨e, he, by simp [← Option.some_inj.mp hcond]⟩
  · exact ⟨e, he, by simp [← Option.some_inj.mp hcond]⟩

lemma subset_expand (edges : List Edge) (S : Finset Coord) : S ⊆ expand edges S :=
  Finset.subset_union_left

lemma expand_subset_universe (edges : List Edge) (s : Coord) (S : Finset Coord)
    (hS : S ⊆ insert s (endpointsFinset edges)) :
    expand edges S ⊆ insert s (endpointsFinset edges) := by
  intro x hx
  rcases Finset.mem_union.mp hx with hx | hx
  · exact hS hx
  · obtain ⟨v, _, hxv⟩ := Finset.mem_biUnion.mp hx
    exact Finset.mem_insert_of_mem
      (mem_nbrs_endpoints edges v x (List.mem_toFinset.mp hxv))

lemma iterate_subset_universe (edges : List Edge) (s : Coord) :
    ∀ n, (expand edges)^[n] {s} ⊆ insert s (endpointsFinset edges) := by
  intro n
  induction n with
  | zero => simp
  | succ n ih =>
    rw [Function.iterate_succ_apply']
    exact expand_subset_universe edges s _ ih

lemma iterate_mono (edges : List Edge) (s : Coord) :
    ∀ m n, m ≤ n → (expand edges)^[m] {s} ⊆ (expand edges)^[n] {s} := by
  intro m n h
  induction n with
  | zero =>
    rw [Nat.le_zero.mp h]
  | succ n ih =>
    rcases Nat.lt_or_ge m (n + 1) with hlt | hge
    · rw [Function.iterate_succ_apply']
      exact (ih (Nat.lt_succ_iff.mp hlt)).trans (subset_expand edges _)
    · rw [Nat.le_antisymm h hge]

lemma iterate_stab (edges : List Edge) (s : Coord) (n : ℕ)
    (h : (expand edges)^[n + 1] {s} = (expand edges)^[n] {s}) :
    ∀ k, (expand edges)^[n + k] {s} = (expand edges)^[n] {s} := by
  intro k
  induction k with
  | zero => rfl
  | succ k ih =>
    have h3 : n + (k + 1) = (n + k) + 1 := by omega
    rw [h3, Function.iterate_succ_apply', ih]
    have h2 : expand edges ((expand edges)^[n] {s}) = (expand edges)^[n + 1] {s} :=
      (Function.iterate_succ_apply' (expand edges) n {s}).symm
    rw [h2, h]

lemma iterate_card_growth (edges : List Edge) (s : Coord) :
    ∀ n, (∀ k < n, (expand edges)^[k + 1] {s} ≠ (expand edges)^[k] {s}) →
      n + 1 ≤ ((expand edges)^[n] {s}).card := by
  intro n
  induction n with
  | zero => simp
  | succ n ih =>
    intro h
    have hne : (expand edges)^[n + 1] {s} ≠ (expand edges)^[n] {s} :=
      h n (Nat.lt_succ_self n)
    have hsub : (expand edges)^[n] {s} ⊆ (expand edges)^[n + 1] {s} :=
      iterate_mono edges s n (n + 1) (Nat.le_succ n)
    have hss : (expand edges)^[n] {s} ⊂ (expand edges)^[n + 1] {s} :=
      Finset.ssubset_iff_subset_ne.mpr ⟨hsub, fun hc => hne hc.symm⟩
    have := Finset.card_lt_card hss
    have hn := ih fun k hk => h k (Nat.lt_succ_of_lt hk)
    omega

lemma mem_iterate_mem_reach (edges : List Edge) (s x : Coord) (n : ℕ)
    (hx : x ∈ (expand edges)^[n] {s}) : x ∈ reach edges s := by
  by_cases hstab : ∃ k < fuelOf edges s,
      (expand edges)^[k + 1] {s} = (expand edges)^[k] {s}
  · obtain ⟨k, hk, hs⟩ := hstab
    have hall : ∀ m, k ≤ m → (expand edges)^[m] {s} = (expand edges)^[k] {s} := by
      intro m hm
      have := iterate_stab edges s k hs (m - k)
      rwa [Nat.add_sub_cancel' hm] at this
    unfold reach
    rw [hall (fuelOf edges s) (Nat.le_of_lt hk)]
    rcases Nat.le_total n k with hnk | hkn
    · exact iterate_mono edges s n k hnk hx
    · rw [← hall n hkn]
      exact hx
  · exfalso
    push_neg at hstab
    have hgrow := iterate_card_growth edges s (fuelOf edges s) fun k hk => hstab k hk
    have hcard : ((expand edges)^[fuelOf edges s] {s}).card ≤ fuelOf edges s :=
      Finset.card_le_card (iterate_subset_universe edges s (fuelOf edges s))
    omega

lemma reach_sound (edges : List Edge) (s : Coord) :
    ∀ n x, x ∈ (expand edges)^[n] {s} → Reachable edges s x := by
  intro n
  induction n with
  | zero =>
    intro x hx
    simp only [Function.iterate_zero_apply, Finset.mem_singleton] at hx
    rw [hx]
    exact Relation.ReflTransGen.refl
  | succ n ih =>
    intro x hx
    rw [Function.iterate_succ_apply'] at hx
    rcases Finset.mem_union.mp hx with hx | hx
    · exact ih x hx
    · obtain ⟨v, hv, hxv⟩ := Finset.mem_biUnion.mp hx
      exact (ih v hv).tail (List.mem_toFinset.mp hxv)

lemma reachable_complete (edges : List Edge) (s x : Coord)
    (h : Reachable edges s x) : ∃ n, x ∈ (expand edges)^[n] {s} := by
  induction h with
  | refl => exact ⟨0, by simp⟩
  | tail hsv hvx ih =>
    obtain ⟨n, hn⟩ := ih
    refine ⟨n + 1, ?_⟩
    rw [Function.iterate_succ_apply']
    refine Finset.mem_union_right _ ?_
    exact Finset.mem_biUnion.mpr ⟨_, hn, List.mem_toFinset.mpr hvx⟩

lemma reach_iff_reachable (edges : List Edge) (s x : Coord) :
    x ∈ reach edges s ↔ Reachable edges s x := by
  constructor
  · exact reach_sound edges s (fuelOf edges s) x
  · intro h
    obtain ⟨n, hn⟩ := reachable_complete edges s x h
    exact mem_iterate_mem_reach edges s x n hn

/-- C7 (amended): `shortest_path` fails with `NodeNotFound` exactly when the
*source* is not a node of the built graph; when the source is a node, it
fails with `NoPathFound` exactly when the target is not reachable from the
source — in particular a target coordinate that is not a node at all also
yields `NoPathFound`, not `NodeNotFound` (networkx only membership-checks
the source). -/
theorem C7_error_classification (ti : TopImage) (s t : Coord) :
    (shortest_path ti s t = .error .NodeNotFound ↔ s ∉ nodeSet ti) ∧
    (shortest_path ti s t = .error .NoPathFound
      ↔ s ∈ nodeSet ti ∧ ¬ Reachable ti.edges s t) := by
  unfold shortest_path
  by_cases hs : s ∈ nodeSet ti
  · rw [if_pos hs]
    by_cases ht : t ∈ reach ti.edges s
    · rw [if_pos ht]
      constructor
      · simp [hs]
      · simp [hs, (reach_iff_reachable ti.edges s t).mp ht]
    · rw [if_neg ht]
      constructor
      · simp [hs]
      · simp only [reach_iff_reachable] at ht
        simp [hs, ht]
  · rw [if_neg hs]
    constructor
    · simp [hs]
    · simp [hs]

/-- C7 counterexample: a graph built through the API with the single node
`(0,0)` and no edges; the target `(5,5)` is not a node, yet the query fails
with `NoPathFound`, not `NodeNotFound` as the claim demands. -/
theorem C7_counterexample :
    ((5,5) : Coord) ∉ nodeSet ti2e ∧
    shortest_path ti2e (0,0) (5,5) = .error .NoPathFound ∧
    ErrorKind.NoPathFound ≠ ErrorKind.NodeNotFound :=
  ⟨by decide, by decide, by decide⟩

/-- C6 (amended): in the 3×3, step-1 scenario the node grid is only
`{0,1} × {0,1}` (the sampling loops stop at `width-1`), the inset edge
sweep `range(1, 3-1-1, 1)` is empty so no edges are built, and the query
from `(0,0)` to `(1,0)` consequently fails with `NoPathFound` instead of
returning the path `[(0,0),(1,0)]` with one "Plain" stage. -/
theorem C6_three_by_three_scenario :
    ti3n.nodes.map Prod.fst = [((0,0) : Coord),(0,1),(1,0),(1,1)] ∧
    ti3e.edges = [] ∧
    read_path ti3e (0,0) (1,0) 1 0 = .error .NoPathFound :=
  ⟨by decide, by decide, by decide⟩

/-- C6 counterexample: the claimed outcome — success with the one-stage
itinerary on path `[(0,0),(1,0)]` — is false: the call returns the
`NoPathFound` error. -/
theorem C6_counterexample :
    read_path ti3e (0,0) (1,0) 1 0 = .error .NoPathFound ∧
    read_path ti3e (0,0) (1,0) 1 0
      ≠ .ok ⟨[], [⟨(0,0),1,1,"Plain"⟩], [(0,0),(1,0)]⟩ :=
  ⟨by decide, by decide⟩

/-- C7 witness: the classification theorem applied to the 2×2 scenario with
the absent target `(5,5)`. -/
theorem C7_error_classification_witness :
    shortest_path ti2e (0,0) (5,5) = .error .NoPathFound :=
  (C7_error_classification ti2e (0,0) (5,5)).2.mpr
    ⟨by decide, fun h =>
      absurd ((reach_iff_reachable ti2e.edges (0,0) (5,5)).mpr h) (by decide)⟩

lemma optionMapList_mem (f : α → Option β) :
    ∀ (l : List α) (bs : List β), optionMapList f l = some bs →
      ∀ b ∈ bs, ∃ a ∈ l, f a = some b := by
  intro l
  induction l with
  | nil =>
    intro bs h b hb
    simp only [optionMapList, Option.some_inj] at h
    subst h
    simp at hb
  | cons a t ih =>
    intro bs h b hb
    simp only [optionMapList] at h
    cases hf : f a with
    | none => rw [hf] at h; cases h
    | some b0 =>
      rw [hf] at h
      rcases Option.map_eq_some'.mp h with ⟨bs2, hbs2, hcons⟩
      subst hcons
      rcases List.mem_cons.mp hb with rfl | hb2
      · exact ⟨a, List.mem_cons_self a t, hf⟩
      · obtain ⟨a2, ha2, hfa2⟩ := ih bs2 hbs2 b hb2
        exact ⟨a2, List.mem_cons_of_mem a ha2, hfa2⟩

lemma optionMapList_isSome_iff (f : α → Option β) :
    ∀ l : List α, (optionMapList f l).isSome ↔ ∀ a ∈ l, (f a).isSome := by
  intro l
  induction l with
  | nil => simp [optionMapList]
  | cons a t ih =>
    simp only [optionMapList]
    cases hf : f a with
    | none => simp [hf]
    | some b => simp [List.forall_mem_cons, hf, ih]

lemma lookupTable_mem (table : List (Color × Density)) (c : Color) (d : Density)
    (h : lookupTable table c = some d) : (c, d) ∈ table := by
  simp only [lookupTable, Option.map_eq_some'] at h
  obtain ⟨p, hp, hpd⟩ := h
  have hmem := List.mem_of_find?_eq_some hp
  have hc := List.find?_some hp
  rw [decide_eq_true_eq] at hc
  cases p with
  | mk p1 p2 =>
    dsimp at hc hpd
    subst hc hpd
    exact hmem

lemma pyInt_nonneg (q : ℚ) (h : 0 ≤ q) : 0 ≤ pyInt q := by
  unfold pyInt
  refine Int.tdiv_nonneg (Rat.num_nonneg.mpr h) ?_
  exact_mod_cast Nat.zero_le q.den

lemma mkEdge_eq_some (table : List (Color × Density)) (nodes : List (Coord × Color))
    (s t : Coord) (factor : ℚ) (e : Edge)
    (h : mkEdge table nodes s t factor = some e) :
    ∃ cs ct dS dT,
      nodeColor nodes s = some cs ∧ nodeColor nodes t = some ct ∧
      lookupTable table cs = some dS ∧ lookupTable table ct = some dT ∧
      e = ⟨s, t, factor, (cheaper dS dT).1, pyInt (((cheaper dS dT).2 : ℚ) * factor)⟩ := by
  simp only [mkEdge, Option.bind_eq_bind, Option.bind_eq_some, Option.pure_def,
    Option.some.injEq] at h
  obtain ⟨cs, h1, ct, h2, dS, h3, dT, h4, he⟩ := h
  exact ⟨cs, ct, dS, dT, h1, h2, h3, h4, he.symm⟩

lemma starTargets_factor (st : ℤ) (s : Coord) (tf : Coord × ℚ)
    (h : tf ∈ starTargets st s) : tf.2 = 1 ∨ tf.2 = 3/2 := by
  simp only [starTargets, List.mem_cons, List.not_mem_nil, or_false] at h
  rcases h with rfl | rfl | rfl | rfl
  · exact Or.inl rfl
  · exact Or.inl rfl
  · exact Or.inr rfl
  · exact Or.inr rfl

lemma read_edges_ok_edges (ti : TopImage) (table : List (Color × Density))
    (ti2 : TopImage) (h : read_edges ti table = .ok ti2) :
    ∃ st stars, ti.step_size = some st ∧
      optionMapList (getStar table ti.nodes st)
        (sweepCoords ti.image.width ti.image.height st) = some stars ∧
      ti2.edges = stars.flatten := by
  unfold read_edges at h
  split at h
  next => cases h
  next st hss =>
    split at h
    next => cases h
    next stars hm =>
      cases h
      exact ⟨st, stars, hss, hm, rfl⟩

/-- C5: in every graph built by `read_edges` from a terrain table with
nonnegative costs, each edge's attributes come from the weakly-cheaper
endpoint — Python's `min(dS, dT, key=...)` keeps its first argument on
ties, i.e. the sweep-source endpoint — its weight is the truncation
`int(cost * factor)` of that endpoint's cost times the edge factor, hence a
nonnegative integer, and its terrain label is that endpoint's label. -/
theorem C5_edge_weight_and_terrain (ti : TopImage) (table : List (Color × Density))
    (ti2 : TopImage)
    (hcost : ∀ p ∈ table, 0 ≤ p.2.2)
    (hok : read_edges ti table = .ok ti2) :
    ∀ e ∈ ti2.edges, ∃ cs ct dS dT,
      nodeColor ti.nodes e.source = some cs ∧
      nodeColor ti.nodes e.target = some ct ∧
      lookupTable table cs = some dS ∧
      lookupTable table ct = some dT ∧
      e.terrain = (cheaper dS dT).1 ∧
      e.weight = pyInt (((cheaper dS dT).2 : ℚ) * e.factor) ∧
      0 ≤ e.weight ∧
      (e.factor = 1 ∨ e.factor = 3/2) := by
  intro e he
  obtain ⟨st, stars, hss, hm, hedges⟩ := read_edges_ok_edges ti table ti2 hok
  rw [hedges] at he
  obtain ⟨star, hstar, hestar⟩ := List.mem_flatten.mp he
  obtain ⟨sC, hsC, hgs⟩ := optionMapList_mem _ _ stars hm star hstar
  obtain ⟨tf, htf, hmk⟩ := optionMapList_mem _ _ star hgs e hestar
  obtain ⟨cs, ct, dS, dT, h1, h2, h3, h4, he5⟩ :=
    mkEdge_eq_some table ti.nodes sC tf.1 tf.2 e hmk
  subst he5
  have hd : 0 ≤ (cheaper dS dT).2 := by
    unfold cheaper
    split_ifs
    · exact hcost (cs, dS) (lookupTable_mem table cs dS h3)
    · exact hcost (ct, dT) (lookupTable_mem table ct dT h4)
  have hfac := starTargets_factor st sC tf htf
  refine ⟨cs, ct, dS, dT, h1, h2, h3, h4, rfl, rfl, ?_, hfac⟩
  apply pyInt_nonneg
  have hf : (0 : ℚ) ≤ tf.2 := by
    rcases hfac with hf | hf <;> rw [hf] <;> norm_num
  exact mul_nonneg (by exact_mod_cast hd) hf

/-- C5 witness: the 4×4 uniformly-Plain scenario — the first built edge has
weight `int(1 * 1) = 1 ≥ 0` and terrain "Plain". -/
theorem C5_edge_weight_and_terrain_witness :
    (∀ p ∈ table3, 0 ≤ p.2.2) ∧
    read_edges ti4n table3 = .ok ti4e ∧
    (∃ cs ct dS dT,
      nodeColor ti4n.nodes (ti4e.edges.headD ⟨(0,0),(0,0),1,"",0⟩).source = some cs ∧
      nodeColor ti4n.nodes (ti4e.edges.headD ⟨(0,0),(0,0),1,"",0⟩).target = some ct ∧
      lookupTable table3 cs = some dS ∧
      lookupTable table3 ct = some dT ∧
      (ti4e.edges.headD ⟨(0,0),(0,0),1,"",0⟩).terrain = (cheaper dS dT).1 ∧
      (ti4e.edges.headD ⟨(0,0),(0,0),1,"",0⟩).weight
        = pyInt (((cheaper dS dT).2 : ℚ) * (ti4e.edges.headD ⟨(0,0),(0,0),1,"",0⟩).factor) ∧
      0 ≤ (ti4e.edges.headD ⟨(0,0),(0,0),1,"",0⟩).weight ∧
      ((ti4e.edges.headD ⟨(0,0),(0,0),1,"",0⟩).factor = 1 ∨
        (ti4e.edges.headD ⟨(0,0),(0,0),1,"",0⟩).factor = 3/2)) :=
  have hok : read_edges ti4n table3 = .ok ti4e := rfl
  have hmem : (ti4e.edges.headD ⟨(0,0),(0,0),1,"",0⟩) ∈ ti4e.edges := by
    rw [show ti4e.edges = (ti4e.edges.headD ⟨(0,0),(0,0),1,"",0⟩) :: ti4e.edges.tail from rfl]
    exact List.mem_cons_self _ _
  ⟨by decide, hok,
    C5_edge_weight_and_terrain ti4n table3 ti4e (by decide) hok _ hmem⟩

lemma mkEdge_isSome_iff (table : List (Color × Density)) (nodes : List (Coord × Color))
    (s t : Coord) (factor : ℚ) :
    (mkEdge table nodes s t factor).isSome ↔
      Resolvable table nodes s ∧ Resolvable table nodes t := by
  cases h1 : nodeColor nodes s with
  | none => simp [mkEdge, h1, Resolvable]
  | some cs =>
    cases h2 : nodeColor nodes t with
    | none => simp [mkEdge, h1, h2, Resolvable]
    | some ct =>
      cases h3 : lookupTable table cs with
      | none => simp [mkEdge, h1, h2, h3, Resolvable]
      | some dS =>
        cases h4 : lookupTable table ct with
        | none => simp [mkEdge, h1, h2, h3, h4, Resolvable]
        | some dT =>
          simp [mkEdge, h1, h2, h3, h4, Resolvable]
          refine ⟨⟨dS.1, dS.2, ?_⟩, ⟨dT.1, dT.2, ?_⟩⟩ <;> rfl

/-- C8 (amended): `build_edges` fails with `GraphNotInitialized` when called
before `build_nodes` (step size unset), and — given a step size — fails
exactly when the supplied table cannot resolve the color of some coordinate
*referenced by the inset sweep* (a sweep source or one of its four forward
neighbors).  Colors of nodes outside the sweep are never looked up, so a
table missing only those does *not* make the call fail (see the
counterexample).  The call reads only the supplied table — the
auto-registered zero-cost entries stored in the object's density dict are
ignored (last conjunct: the result does not depend on the stored dict). -/
theorem C8_graph_not_initialized (ti : TopImage) (table : List (Color × Density)) :
    (ti.step_size = none → read_edges ti table = .error .GraphNotInitialized) ∧
    (∀ st, ti.step_size = some st →
      (read_edges ti table = .error .GraphNotInitialized ↔
        ¬ ∀ s ∈ sweepCoords ti.image.width ti.image.height st,
            ∀ tf ∈ starTargets st s,
              Resolvable table ti.nodes s ∧ Resolvable table ti.nodes tf.1)) ∧
    (∀ d, read_edges { ti with density := d } table = read_edges ti table) := by
  refine ⟨?_, ?_, ?_⟩
  · intro hss
    unfold read_edges
    rw [hss]
  · intro st hss
    have key : (optionMapList (getStar table ti.nodes st)
        (sweepCoords ti.image.width ti.image.height st)).isSome ↔
        ∀ s ∈ sweepCoords ti.image.width ti.image.height st,
          ∀ tf ∈ starTargets st s,
            Resolvable table ti.nodes s ∧ Resolvable table ti.nodes tf.1 := by
      rw [optionMapList_isSome_iff]
      refine forall_congr' fun s => forall_congr' fun hs => ?_
      unfold getStar
      rw [optionMapList_isSome_iff]
      exact forall_congr' fun tf => forall_congr' fun htf =>
        mkEdge_isSome_iff table ti.nodes s tf.1 tf.2
    have herr : read_edges ti table = .error .GraphNotInitialized ↔
        ¬ (optionMapList (getStar table ti.nodes st)
            (sweepCoords ti.image.width ti.image.height st)).isSome := by
      unfold read_edges
      rw [hss]
      dsimp only
      cases hm : optionMapList (getStar table ti.nodes st)
          (sweepCoords ti.image.width ti.image.height st) with
      | none => simp
      | some stars => simp
    rw [herr, key]
  · intro d
    unfold read_edges
    rfl

/-- C8 witness: with no step size set, `read_edges` fails with
`GraphNotInitialized`; with the 3×3 scenario's step size set, the theorem's
classification applied at the empty table shows the call does not fail
(the sweep is empty, so nothing is ever looked up). -/
theorem C8_graph_not_initialized_witness :
    read_edges (mkTopImage img3) [] = .error .GraphNotInitialized ∧
    read_edges ti3n [] ≠ .error .GraphNotInitialized :=
  ⟨(C8_graph_not_initialized (mkTopImage img3) []).1 rfl,
   fun h => by
    have h2 := ((C8_graph_not_initialized ti3n []).2.1 1 (by decide)).mp h
    refine h2 ?_
    intro s hs
    rw [show sweepCoords ti3n.image.width ti3n.image.height 1 = [] from by decide] at hs
    cases hs⟩

/-- C8 counterexample: in the 3×3 scenario the graph has four nodes whose
colors are all absent from the empty table — a "mismatched" table in the
claim's sense — yet `read_edges` succeeds, because the inset sweep is empty
and no color is ever looked up. -/
theorem C8_counterexample :
    ti3n.step_size = some 1 ∧
    ti3n.nodes ≠ [] ∧
    (ti3n.nodes.all fun p => (lookupTable [] p.2).isNone) = true ∧
    (read_edges ti3n []).toOption.isSome = true :=
  ⟨by decide, by decide, by decide, by decide⟩

lemma fdiv_nonneg_of_nonpos_of_neg (a b : ℤ) (ha : a ≤ 0) (hb : b < 0) :
    0 ≤ Int.fdiv a b := by
  cases a with
  | ofNat m =>
    cases m with
    | zero => simp
    | succ k =>
      exfalso
      have hpos2 : (0 : ℤ) < Int.ofNat (k + 1) := by
        rw [Int.ofNat_eq_coe]
        exact_mod_cast Nat.succ_pos k
      omega
  | negSucc m =>
    cases b with
    | ofNat n =>
      exfalso
      have hn : (0 : ℤ) ≤ Int.ofNat n := Int.ofNat_nonneg n
      omega
    | negSucc n =>
      rw [show Int.fdiv (Int.negSucc m) (Int.negSucc n) = Int.ofNat ((m+1) / (n+1)) from rfl]
      exact Int.ofNat_nonneg _

lemma pyRange_eq_nil_of_count_nonpos (start stop step : ℤ)
    (h : ceilDiv (stop - start) step ≤ 0) : pyRange start stop step = [] := by
  unfold pyRange
  rw [show (max 0 (ceilDiv (stop - start) step)).toNat = 0 from by omega]
  rfl

lemma pyRange_zero_nil_of_neg_step (stop step : ℤ) (h1 : 0 ≤ stop) (h2 : step < 0) :
    pyRange 0 stop step = [] := by
  apply pyRange_eq_nil_of_count_nonpos
  unfold ceilDiv
  have := fdiv_nonneg_of_nonpos_of_neg (-(stop - 0)) step (by omega) h2
  omega

lemma pyRange_zero_nil_of_nonpos_stop (stop step : ℤ) (h1 : stop ≤ 0) (h2 : 0 < step) :
    pyRange 0 stop step = [] := by
  apply pyRange_eq_nil_of_count_nonpos
  unfold ceilDiv
  have := Int.fdiv_nonneg (a := -(stop - 0)) (b := step) (by omega) (by omega)
  omega

/-- C9 (amended): `read_nodes` raises an error (`ValueError` from
`range(..., 0)`, the spec's `InvalidParameter`) exactly when `step = 0`.
A *negative* step, and a zero-width or zero-height image with a positive
step, are accepted silently: the call succeeds and simply creates no nodes
— the claimed `InvalidParameter` failure for those inputs does not exist
(see the counterexample). -/
theorem C9_read_nodes_validation (ti : TopImage) (step : ℤ) :
    (read_nodes ti step = .error .InvalidParameter ↔ step = 0) ∧
    (step < 0 → 1 ≤ ti.image.width → 1 ≤ ti.image.height →
      ∃ ti2, read_nodes ti step = .ok ti2 ∧ ti2.nodes = []) ∧
    (0 < step → (ti.image.width = 0 ∨ ti.image.height = 0) →
      ∃ ti2, read_nodes ti step = .ok ti2 ∧ ti2.nodes = []) := by
  refine ⟨?_, ?_, ?_⟩
  · constructor
    · intro h
      by_contra hc
      unfold read_nodes at h
      rw [if_neg hc] at h
      cases h
    · intro h
      unfold read_nodes
      rw [if_pos h]
  · intro hneg hw hh
    unfold read_nodes
    rw [if_neg (by omega)]
    refine ⟨_, rfl, ?_⟩
    dsimp only
    rw [pyRange_zero_nil_of_neg_step (ti.image.width - 1) step (by omega) hneg]
    rfl
  · intro hpos hdim
    unfold read_nodes
    rw [if_neg (by omega)]
    refine ⟨_, rfl, ?_⟩
    dsimp only
    rcases hdim with hw | hh
    · rw [pyRange_zero_nil_of_nonpos_stop (ti.image.width - 1) step (by omega) hpos]
      rfl
    · rw [pyRange_zero_nil_of_nonpos_stop (ti.image.height - 1) step (by omega) hpos]
      simp

/-- C9 witness: the validation theorem applied at step 0 (the one failing
case) and at step −1 on the 3×3 image (silently empty). -/
theorem C9_read_nodes_validation_witness :
    read_nodes (mkTopImage img3) 0 = .error .InvalidParameter ∧
    ∃ ti2, read_nodes (mkTopImage img3) (-1) = .ok ti2 ∧ ti2.nodes = [] :=
  ⟨(C9_read_nodes_validation (mkTopImage img3) 0).1.mpr rfl,
   (C9_read_nodes_validation (mkTopImage img3) (-1)).2.1 (by decide) (by decide) (by decide)⟩

/-- C9 counterexample: `read_nodes` with the negative step `-1 ≤ 0` on the
3×3 image succeeds (creating no nodes) instead of failing with
`InvalidParameter` as the claim demands. -/
theorem C9_counterexample :
    ((-1 : ℤ) ≤ 0) ∧
    (read_nodes (mkTopImage img3) (-1)).toOption.isSome = true ∧
    read_nodes (mkTopImage img3) (-1) ≠ .error .InvalidParameter :=
  ⟨by decide, by decide, fun h => by
    unfold read_nodes at h
    rw [if_neg (by decide : ¬((-1 : ℤ) = 0))] at h
    cases h⟩

end Pixelmap
